import Mathlib

/-!
# A verification development of the party room-session server

Shallow embedding of the authoritative room-session engine:
* `src/shared/game.ts` — role catalog, deck builder, shuffle, message schemas;
* the PartyKit server class — connection-to-identity binding, join / host
  election, quota editing, role assignment, reset, per-viewer redaction,
  unicast/broadcast of projected state.

Modelling conventions:
* A JS string-keyed object (`Record<string, Player>`) is an insertion-ordered
  association list `List (String × α)`; `recGet`/`recSet` mirror JS property
  read and write (write updates an existing key in place, otherwise appends).
* `Date.now()`, `Math.random()` draws for name generation, and the shuffle's
  random source are oracle parameters (`now`, `r1`, `r2`, `rand`), so every
  run of the real server corresponds to some choice of oracles.
* `conn.send(JSON.stringify(data))` is recorded as an output pair
  `(connectionId, ServerMsg)`; the outputs of one `onMessage` call are
  returned as a list in emission order.
* The TS `Player` type declares a `ready` field, but the server constructs
  players without it and no server code path reads or writes it
  ("name and ready are no longer editable by clients in v1.1"), so the
  embedding omits it.
-/

namespace Witness

/-- `roleKeys` entries from `src/shared/game.ts`: `["A", "B", "C", "D"]`. -/
inductive RoleKey where
  | A
  | B
  | C
  | D
deriving DecidableEq, Repr

/-- `roleKeys` constant, in catalog order. -/
def roleKeys : List RoleKey := [.A, .B, .C, .D]

/-- The `affects` record of a `RoleSpec`; absent optional fields default to
`false` / the empty list. -/
structure RoleAffects where
  self : Bool := false
  targetsRoleKeys : List RoleKey := []
  global : Bool := false
deriving DecidableEq, Repr

/-- `RoleSpec` from `src/shared/game.ts`. -/
structure RoleSpec where
  key : RoleKey
  name : String
  description : String
  affects : RoleAffects
deriving DecidableEq, Repr

/-- The static `rolesCatalog` constant. -/
def rolesCatalog : List RoleSpec :=
  [ { key := .A, name := "Role A",
      description := "you primarily act on yourself. placeholder description for v1.",
      affects := { self := true } },
    { key := .B, name := "Role B",
      description := "you target players with role A. placeholder description for v1.",
      affects := { targetsRoleKeys := [.A] } },
    { key := .C, name := "Role C",
      description := "you have a global effect. placeholder description for v1.",
      affects := { global := true } },
    { key := .D, name := "Role D",
      description := "you target players with roles B and C. placeholder description for v1.",
      affects := { targetsRoleKeys := [.B, .C] } } ]

/-- `Player` from `src/shared/game.ts` (without the never-populated `ready`
field, see the module docstring). `joinedAt` is a millisecond timestamp. -/
structure Player where
  id : String
  name : String
  isHost : Bool
  joinedAt : Nat
  roleKey : Option RoleKey := none
deriving DecidableEq, Repr

/-- `RoleConfig = Record<RoleKey, number>`: the quota count for each of the
four catalog keys. -/
structure RoleConfig where
  A : Nat
  B : Nat
  C : Nat
  D : Nat
deriving DecidableEq, Repr

/-- Read a quota entry (`config[key]`). -/
def RoleConfig.get (c : RoleConfig) : RoleKey → Nat
  | .A => c.A
  | .B => c.B
  | .C => c.C
  | .D => c.D

/-- Write a quota entry (`config[key] = n`). -/
def RoleConfig.set (c : RoleConfig) : RoleKey → Nat → RoleConfig
  | .A, n => { c with A := n }
  | .B, n => { c with B := n }
  | .C, n => { c with C := n }
  | .D, n => { c with D := n }

/-- `defaultRoleConfig`: every key mapped to 0. -/
def defaultRoleConfig : RoleConfig := ⟨0, 0, 0, 0⟩

/-- `GameStatus = "lobby" | "assigned"`. -/
inductive GameStatus where
  | lobby
  | assigned
deriving DecidableEq, Repr

/-- `GameState` from `src/shared/game.ts`.  `players` is the insertion-ordered
string-keyed record keyed by `player.id`. -/
structure GameState where
  roomId : String
  hostId : Option String
  status : GameStatus
  players : List (String × Player)
  roleConfig : RoleConfig
  assignedAt : Option Nat := none
  rolesCatalog : List RoleSpec
deriving DecidableEq, Repr

/-- JS object property read `m[k]` on a string-keyed record. -/
def recGet {α : Type} : List (String × α) → String → Option α
  | [], _ => none
  | (k', v) :: rest, k => if k' = k then some v else recGet rest k

/-- JS object property write `m[k] = v`: updates an existing key in place
(keeping its position), otherwise appends the new key at the end, matching
JS insertion order. -/
def recSet {α : Type} : List (String × α) → String → α → List (String × α)
  | [], k, v => [(k, v)]
  | (k', v') :: rest, k, v =>
      if k' = k then (k', v) :: rest else (k', v') :: recSet rest k v

/-- `buildDeck` from `src/shared/game.ts`: for each catalog key in order,
push the key `config[key]` times. -/
def buildDeck (config : RoleConfig) : List RoleKey :=
  roleKeys.flatMap (fun k => List.replicate (config.get k) k)

/-- `totalRoles` from `src/shared/game.ts`: `roleKeys.reduce((sum, key) =>
sum + (config[key] ?? 0), 0)`. -/
def totalRoles (config : RoleConfig) : Nat :=
  roleKeys.foldl (fun sum k => sum + config.get k) 0

/-- One Fisher–Yates step `[arr[i], arr[j]] = [arr[j], arr[i]]`.  With both
indices in bounds this swaps the two entries; the fallback branch is
unreachable for the index ranges `shuffle` produces from a `[0,1)` random
source. -/
def listSwap {α : Type} (l : List α) (i j : Nat) : List α :=
  match l[i]?, l[j]? with
  | some a, some b => (l.set i b).set j a
  | _, _ => l

/-- The loop of `shuffle`: `for (let i = arr.length - 1; i > 0; i--)` swap
`arr[i]` with `arr[rand i]`, where `rand i` models
`Math.floor(rng() * (i + 1))` for the call made at index `i`. -/
def shuffleGo {α : Type} (rand : Nat → Nat) : Nat → List α → List α
  | 0, arr => arr
  | i + 1, arr => shuffleGo rand i (listSwap arr (i + 1) (rand (i + 1)))

/-- `shuffle` from `src/shared/game.ts` (Fisher–Yates on a copy of the input,
random source injected). -/
def shuffle {α : Type} (l : List α) (rand : Nat → Nat) : List α :=
  shuffleGo rand (l.length - 1) l

/-- `computeImpactScore` from `src/shared/game.ts`. -/
def computeImpactScore (viewerRoleKey : Option RoleKey) (role : RoleSpec) : Nat :=
  let s1 := if role.affects.global then 1 else 0
  let s2 :=
    match viewerRoleKey with
    | none => 0
    | some v =>
        (if role.affects.self && role.key = v then 2 else 0) +
          (if role.affects.targetsRoleKeys.contains v then 3 else 0)
  s1 + s2

/-- A schema-validated client message (`z.infer<typeof clientMessageSchema>`).
`setName` and `setReady` are accepted by the schema but have no dispatch case
in the server.  `count` keeps the wire integer; the schema restricts it to
`[0, 99]`. -/
inductive ClientMessage where
  | join (name : String) (clientId : String)
  | setName (name : String)
  | setReady (ready : Bool)
  | setRoleCount (roleKey : RoleKey) (count : Int)
  | assignRoles
  | reset
  | requestState
deriving DecidableEq, Repr

/-- A parsed inbound JSON value, before schema validation.  `malformed`
stands for unparseable text and for any shape outside the discriminated
union.  `roleKey` is the raw string; `count` the raw (integer) number. -/
inductive RawMsg where
  | join (name : String) (clientId : String)
  | setName (name : String)
  | setReady (ready : Bool)
  | setRoleCount (roleKey : String) (count : Int)
  | assignRoles
  | reset
  | requestState
  | malformed
deriving DecidableEq, Repr

/-- The `roleKeySchema` union of literals. -/
def parseRoleKey : String → Option RoleKey
  | "A" => some .A
  | "B" => some .B
  | "C" => some .C
  | "D" => some .D
  | _ => none

/-- `clientMessageSchema.parse`: structural validation of an inbound message.
`none` models a thrown `ZodError`.  String length bounds follow
`z.string().max(64)` and `z.string().min(1)`; the `setRoleCount` count must
satisfy `z.number().int().min(0).max(99)`. -/
def parseClientMessage : RawMsg → Option ClientMessage
  | .join name clientId =>
      if name.length ≤ 64 && 1 ≤ clientId.length then some (.join name clientId)
      else none
  | .setName name => if name.length ≤ 64 then some (.setName name) else none
  | .setReady ready => some (.setReady ready)
  | .setRoleCount roleKey count =>
      match parseRoleKey roleKey with
      | some k => if 0 ≤ count && count ≤ 99 then some (.setRoleCount k count) else none
      | none => none
  | .assignRoles => some .assignRoles
  | .reset => some .reset
  | .requestState => some .requestState
  | .malformed => none

/-- An outbound server message: `{type:"state", state}` or
`{type:"error", message}`. -/
inductive ServerMsg where
  | state (s : GameState)
  | error (message : String)
deriving DecidableEq, Repr

/-- The mutable fields of the `Server` class: the room `state`, the set of
live `connections` (insertion-ordered, by connection id), and the
`connectionIdToClientId` binding map. -/
structure ServerState where
  state : GameState
  connections : List String
  bindings : List (String × String)
deriving DecidableEq, Repr

/-- The constructor of the `Server` class: fresh lobby state for a room. -/
def initialServer (roomId : String) : ServerState :=
  { state :=
      { roomId := roomId
        hostId := none
        status := .lobby
        players := []
        roleConfig := defaultRoleConfig
        rolesCatalog := rolesCatalog }
    connections := []
    bindings := [] }

/-- `personalizeStateFor`: shallow copy of the room state in which every
player's `roleKey` is cleared unless that player's id equals the viewer's. -/
def personalizeStateFor (s : GameState) (viewerClientId : Option String) : GameState :=
  { s with
    players := s.players.map (fun e =>
      (e.1, if viewerClientId = some e.1 then e.2 else { e.2 with roleKey := none })) }

/-- `sendStateTo`: unicast the caller's own projected view, anonymous when
the connection has no binding (`?? null`). -/
def sendStateTo (st : ServerState) (conn : String) : String × ServerMsg :=
  (conn, .state (personalizeStateFor st.state (recGet st.bindings conn)))

/-- `broadcastState`: `sendStateTo` every live connection. -/
def broadcastState (st : ServerState) : List (String × ServerMsg) :=
  st.connections.map (fun c => sendStateTo st c)

/-- `getSenderPlayer`: resolve the caller's bound identity.  A connection
with no binding gets a unicast "please join first" error and resolves to
`none`; a bound connection resolves to the player record for its client id
(possibly `none` if no such player exists), with no error emitted. -/
def getSenderPlayer (st : ServerState) (conn : String) :
    Option Player × List (String × ServerMsg) :=
  match recGet st.bindings conn with
  | none => (none, [(conn, .error "please join first")])
  | some clientId => (recGet st.state.players clientId, [])

/-- The `first` name pool of `generateOldTimeyName`. -/
def firstNames : List String :=
  ["agnes", "beatrice", "clement", "dorothy", "edmund", "florence", "gilbert",
   "harriet", "ira", "judith", "katharine", "leopold", "mabel", "nora",
   "oswald", "pearl", "quincy", "rosalind", "silas", "thelma", "ulysses",
   "victor", "wilhelmina", "xavier", "yvette", "zeke"]

/-- The `last` name pool of `generateOldTimeyName`. -/
def lastNames : List String :=
  ["abbott", "barnaby", "carrington", "davenport", "ellsworth", "farnsworth",
   "gafford", "hathaway", "inglewood", "jennings", "kensington", "lancaster",
   "montgomery", "norwood", "oakley", "pendleton", "quidley", "rosenberg",
   "sinclair", "thornton", "upton", "vanderbilt", "whitaker", "york",
   "zabriski"]

/-- `generateOldTimeyName`: pick a first and last name with two random draws.
`Math.floor(Math.random() * list.length)` is an arbitrary in-range index;
the oracle naturals are reduced mod the pool sizes to model that. -/
def generateOldTimeyName (r1 r2 : Nat) : String :=
  firstNames.getD (r1 % firstNames.length) "" ++ " " ++
    lastNames.getD (r2 % lastNames.length) ""

/-- Stable insertion into a list already ordered by ascending `joinedAt`:
the new element goes after every element whose `joinedAt` is `≤` its own. -/
def insertByJoined (e : String × Player) : List (String × Player) → List (String × Player)
  | [] => [e]
  | f :: rest =>
      if f.2.joinedAt ≤ e.2.joinedAt then f :: insertByJoined e rest
      else e :: f :: rest

/-- `players.sort((a, b) => a.joinedAt - b.joinedAt)`: JS `Array.prototype.sort`
is a stable sort, embedded as stable insertion sort (elements inserted in
original order, each after all earlier elements with `joinedAt ≤` its own). -/
def sortByJoined (l : List (String × Player)) : List (String × Player) :=
  l.foldl (fun acc e => insertByJoined e acc) []

/-- The `onMessage` dispatch on a schema-validated message.  Oracles: `now`
for `Date.now()`, `r1 r2` for the name-generator draws, `rand` for the
shuffle's random source.  Returns the updated server fields and the list of
`(connectionId, message)` sends in emission order. -/
def onMessage (st : ServerState) (msg : ClientMessage) (sender : String)
    (now r1 r2 : Nat) (rand : Nat → Nat) : ServerState × List (String × ServerMsg) :=
  match msg with
  | .join _name clientId =>
      -- `if (!msg.clientId)`: the empty string is the only falsy string
      if clientId = "" then (st, [(sender, .error "missing clientId")])
      else
        let st := { st with bindings := recSet st.bindings sender clientId }
        match recGet st.state.players clientId with
        | some _ =>
            -- preserve existing player record (server-owned name)
            (st, broadcastState st)
        | none =>
            let isFirst := st.state.players.isEmpty
            let newPlayer : Player :=
              { id := clientId
                name := generateOldTimeyName r1 r2
                isHost := isFirst
                joinedAt := now }
            let st := { st with state := { st.state with
              players := recSet st.state.players clientId newPlayer
              hostId := if isFirst then some clientId else st.state.hostId } }
            (st, broadcastState st)
  | .setRoleCount roleKey count =>
      let gate := getSenderPlayer st sender
      match gate.1 with
      | none => (st, gate.2 ++ [(sender, .error "only host can edit roles")])
      | some player =>
          if !player.isHost then
            (st, gate.2 ++ [(sender, .error "only host can edit roles")])
          else
            -- the source's `if (!msg.roleKey || typeof msg.count !== "number")
            -- return` guard is vacuous on schema-validated messages: a parsed
            -- roleKey is one of the (truthy) literals and count is a number
            let st := { st with state := { st.state with
              roleConfig := st.state.roleConfig.set roleKey
                (Int.toNat (max 0 (min 99 count))) } }
            (st, broadcastState st)
  | .assignRoles =>
      let gate := getSenderPlayer st sender
      match gate.1 with
      | none => (st, gate.2 ++ [(sender, .error "only host can assign roles")])
      | some player =>
          if !player.isHost then
            (st, gate.2 ++ [(sender, .error "only host can assign roles")])
          else
            let playerIds := st.state.players.map Prod.fst
            let deck := buildDeck st.state.roleConfig
            if deck.length ≠ playerIds.length then
              (st, gate.2 ++ [(sender, .error "role count must equal number of players")])
            else
              -- `playerIds.map(id => players[id]).sort(byJoinedAt)` then
              -- `orderedPlayers[i].roleKey = shuffled[i]` writes through the
              -- shared references into `state.players`
              let ordered := sortByJoined st.state.players
              let shuffled := shuffle deck rand
              let asn := (ordered.map Prod.fst).zip shuffled
              let players' := st.state.players.map (fun e =>
                (e.1, match recGet asn e.1 with
                      | some r => { e.2 with roleKey := some r }
                      | none => e.2))
              let st := { st with state := { st.state with
                players := players'
                status := .assigned
                assignedAt := some now } }
              (st, broadcastState st)
  | .reset =>
      let gate := getSenderPlayer st sender
      match gate.1 with
      | none => (st, gate.2 ++ [(sender, .error "only host can reset")])
      | some player =>
          if !player.isHost then
            (st, gate.2 ++ [(sender, .error "only host can reset")])
          else
            let players' := st.state.players.map (fun e => (e.1, { e.2 with roleKey := none }))
            let st := { st with state := { st.state with
              players := players'
              status := .lobby
              assignedAt := none } }
            (st, broadcastState st)
  | .requestState => (st, [sendStateTo st sender])
  | .setName _ => (st, [(sender, .error "unknown message type")])
  | .setReady _ => (st, [(sender, .error "unknown message type")])

/-- The full `onMessage(raw, sender)` entry point: parse/validate, answering
"invalid message" on failure, then dispatch. -/
def onRaw (st : ServerState) (raw : RawMsg) (sender : String)
    (now r1 r2 : Nat) (rand : Nat → Nat) : ServerState × List (String × ServerMsg) :=
  match parseClientMessage raw with
  | none => (st, [(sender, .error "invalid message")])
  | some msg => onMessage st msg sender now r1 r2 rand

/-! ## Helper lemmas -/

/-- Reading an untouched key through a record write. -/
theorem recGet_recSet_ne {α : Type} (m : List (String × α)) (k k' : String) (v : α)
    (h : k' ≠ k) : recGet (recSet m k' v) k = recGet m k := by
  induction m with
  | nil => simp [recSet, recGet, h]
  | cons e rest ih =>
      by_cases he : e.1 = k'
      · simp [recSet, recGet, he, h]
      · by_cases hk : e.1 = k <;> simp [recSet, recGet, he, hk, ih, Ne.symm h]

/-- Writing an absent key appends it at the end of the record. -/
theorem recSet_eq_append {α : Type} (m : List (String × α)) (k : String) (v : α)
    (h : recGet m k = none) : recSet m k v = m ++ [(k, v)] := by
  induction m with
  | nil => simp [recSet]
  | cons e rest ih =>
      by_cases he : e.1 = k
      · simp [recGet, he] at h
      · simp [recGet, he] at h
        simp [recSet, he, ih h]

/-- Reading through a key-preserving per-entry map. -/
theorem recGet_map_pair {α β : Type} (g : String → α → β) (l : List (String × α)) (k : String) :
    recGet (l.map (fun e => (e.1, g e.1 e.2))) k = (recGet l k).map (g k) := by
  induction l with
  | nil => rfl
  | cons e rest ih =>
      by_cases he : e.1 = k
      · subst he; simp [recGet, ih]
      · simp [recGet, he, ih]

/-- With no duplicate keys, a record entry is found by lookup. -/
theorem recGet_of_mem_of_nodup {α : Type} (l : List (String × α)) (k : String) (v : α)
    (hn : (l.map Prod.fst).Nodup) (hm : (k, v) ∈ l) : recGet l k = some v := by
  induction l with
  | nil => cases hm
  | cons e rest ih =>
      simp only [List.map_cons, List.nodup_cons] at hn
      rcases List.mem_cons.mp hm with he | hrest
      · subst he; simp [recGet]
      · have hk : e.1 ≠ k := by
          intro hk
          apply hn.1
          rw [hk]
          exact List.mem_map.mpr ⟨(k, v), hrest, rfl⟩
        simp [recGet, hk]
        exact ih hn.2 hrest

/-- Lookup into a zip covers every key of the left list when lengths agree. -/
theorem recGet_zip_covers {α : Type} (ids : List String) (rs : List α) (k : String)
    (hlen : ids.length = rs.length) (hk : k ∈ ids) :
    ∃ r, recGet (ids.zip rs) k = some r ∧ r ∈ rs := by
  induction ids generalizing rs with
  | nil => cases hk
  | cons i ids ih =>
      cases rs with
      | nil => simp at hlen
      | cons r rs =>
          by_cases he : i = k
          · refine ⟨r, ?_, by simp⟩
            show recGet ((i, r) :: ids.zip rs) k = some r
            simp [recGet, he]
          · rcases List.mem_cons.mp hk with hik | hik
            · exact absurd hik.symm he
            · rcases ih rs (by simpa using hlen) hik with ⟨r', hget, hmem⟩
              refine ⟨r', ?_, by simp [hmem]⟩
              show recGet ((i, r) :: ids.zip rs) k = some r'
              simp [recGet, he, hget]

/-- Positional lookup into a zip: with distinct keys, the key at index `i`
maps to the value at index `i`. -/
theorem recGet_zip_idx {α : Type} (ids : List String) (rs : List α) (i : Nat) (k : String)
    (hn : ids.Nodup) (hi : ids[i]? = some k) (hlen : ids.length = rs.length) :
    recGet (ids.zip rs) k = rs[i]? := by
  induction ids generalizing rs i with
  | nil => simp at hi
  | cons a ids ih =>
      cases rs with
      | nil => simp at hlen
      | cons r rs =>
          cases i with
          | zero =>
              simp at hi
              subst hi
              show recGet ((a, r) :: ids.zip rs) a = (r :: rs)[0]?
              simp [recGet]
          | succ i =>
              simp at hi
              have hak : a ≠ k := by
                intro h
                subst h
                exact (List.nodup_cons.mp hn).1 (List.getElem?_mem hi)
              show recGet ((a, r) :: ids.zip rs) k = (r :: rs)[i + 1]?
              have := ih rs i (List.nodup_cons.mp hn).2 hi (by simpa using hlen)
              simp [recGet, hak]
              simpa using this

/-- A broadcast consists of `state` messages only; it never carries an error. -/
theorem error_not_mem_broadcast (st : ServerState) (c m : String) :
    (c, ServerMsg.error m) ∉ broadcastState st := by
  simp [broadcastState, sendStateTo]

/-- The deck built from a quota has exactly `totalRoles` cards. -/
theorem buildDeck_length (config : RoleConfig) :
    (buildDeck config).length = totalRoles config := by
  simp [buildDeck, totalRoles, roleKeys]
  omega

/-- Every card in the deck is a key with a positive quota count. -/
theorem mem_buildDeck (config : RoleConfig) (r : RoleKey) (h : r ∈ buildDeck config) :
    0 < config.get r := by
  rcases List.mem_flatMap.mp h with ⟨k, _, hr⟩
  rcases List.mem_replicate.mp hr with ⟨hne, rfl⟩
  exact Nat.pos_of_ne_zero hne

/-- A Fisher–Yates step preserves length. -/
theorem length_listSwap {α : Type} (l : List α) (i j : Nat) :
    (listSwap l i j).length = l.length := by
  unfold listSwap
  split <;> simp

/-- A Fisher–Yates step introduces no new elements. -/
theorem mem_listSwap {α : Type} (l : List α) (i j : Nat) (x : α)
    (h : x ∈ listSwap l i j) : x ∈ l := by
  unfold listSwap at h
  split at h
  case _ a b hi hj =>
    rcases List.mem_or_eq_of_mem_set h with h' | rfl
    · rcases List.mem_or_eq_of_mem_set h' with h'' | rfl
      · exact h''
      · exact List.getElem?_mem hj
    · exact List.getElem?_mem hi
  case _ => exact h

/-- The shuffle loop preserves length. -/
theorem length_shuffleGo {α : Type} (rand : Nat → Nat) (n : Nat) (l : List α) :
    (shuffleGo rand n l).length = l.length := by
  induction n generalizing l with
  | zero => rfl
  | succ n ih => simp [shuffleGo, ih, length_listSwap]

/-- The shuffle loop introduces no new elements. -/
theorem mem_shuffleGo {α : Type} (rand : Nat → Nat) (n : Nat) (l : List α) (x : α)
    (h : x ∈ shuffleGo rand n l) : x ∈ l := by
  induction n generalizing l with
  | zero => exact h
  | succ n ih => exact mem_listSwap _ _ _ _ (ih _ h)

/-- `shuffle` preserves length. -/
theorem length_shuffle {α : Type} (l : List α) (rand : Nat → Nat) :
    (shuffle l rand).length = l.length :=
  length_shuffleGo rand _ l

/-- Every element of a shuffled list comes from the input list. -/
theorem mem_shuffle {α : Type} (l : List α) (rand : Nat → Nat) (x : α)
    (h : x ∈ shuffle l rand) : x ∈ l :=
  mem_shuffleGo rand _ l x h

/-- Stable insertion is a permutation of consing. -/
theorem insertByJoined_perm (e : String × Player) (l : List (String × Player)) :
    (insertByJoined e l).Perm (e :: l) := by
  induction l with
  | nil => exact List.Perm.refl _
  | cons f rest ih =>
      by_cases h : f.2.joinedAt ≤ e.2.joinedAt
      · simp only [insertByJoined, if_pos h]
        exact (ih.cons f).trans (List.Perm.swap e f rest)
      · simp only [insertByJoined, if_neg h]
        exact List.Perm.refl _

/-- The fold underlying `sortByJoined` permutes accumulator and input. -/
theorem sortByJoined_fold_perm (l acc : List (String × Player)) :
    (l.foldl (fun acc e => insertByJoined e acc) acc).Perm (acc ++ l) := by
  induction l generalizing acc with
  | nil => simp
  | cons x l ih =>
      show (l.foldl (fun acc e => insertByJoined e acc) (insertByJoined x acc)).Perm
        (acc ++ x :: l)
      have h1 := ih (insertByJoined x acc)
      have h2 : (insertByJoined x acc ++ l).Perm ((x :: acc) ++ l) :=
        (insertByJoined_perm x acc).append_right l
      have h3 : ((x :: acc) ++ l).Perm (acc ++ x :: l) := List.perm_middle.symm
      exact h1.trans (h2.trans h3)

/-- `sortByJoined` is a permutation of its input. -/
theorem sortByJoined_perm (l : List (String × Player)) : (sortByJoined l).Perm l := by
  simpa using sortByJoined_fold_perm l []

/-- Stable insertion preserves ascending-`joinedAt` ordering. -/
theorem insertByJoined_pairwise (e : String × Player) (l : List (String × Player))
    (h : l.Pairwise (fun a b => a.2.joinedAt ≤ b.2.joinedAt)) :
    (insertByJoined e l).Pairwise (fun a b => a.2.joinedAt ≤ b.2.joinedAt) := by
  induction l with
  | nil => simp [insertByJoined]
  | cons f rest ih =>
      rcases List.pairwise_cons.mp h with ⟨hf, hrest⟩
      by_cases hle : f.2.joinedAt ≤ e.2.joinedAt
      · simp only [insertByJoined, if_pos hle]
        refine List.pairwise_cons.mpr ⟨?_, ih hrest⟩
        intro x hx
        have : x ∈ e :: rest := (insertByJoined_perm e rest).mem_iff.mp hx
        rcases List.mem_cons.mp this with rfl | hx'
        · exact hle
        · exact hf x hx'
      · simp only [insertByJoined, if_neg hle]
        have hef : e.2.joinedAt ≤ f.2.joinedAt := Nat.le_of_not_le hle
        refine List.pairwise_cons.mpr ⟨?_, h⟩
        intro x hx
        rcases List.mem_cons.mp hx with rfl | hx'
        · exact hef
        · exact hef.trans (hf x hx')

/-- The fold underlying `sortByJoined` keeps the accumulator sorted. -/
theorem sortByJoined_fold_pairwise (l acc : List (String × Player))
    (h : acc.Pairwise (fun a b => a.2.joinedAt ≤ b.2.joinedAt)) :
    (l.foldl (fun acc e => insertByJoined e acc) acc).Pairwise
      (fun a b => a.2.joinedAt ≤ b.2.joinedAt) := by
  induction l generalizing acc with
  | nil => exact h
  | cons x l ih => exact ih _ (insertByJoined_pairwise x acc h)

/-- `sortByJoined` orders players by ascending `joinedAt`. -/
theorem sortByJoined_pairwise (l : List (String × Player)) :
    (sortByJoined l).Pairwise (fun a b => a.2.joinedAt ≤ b.2.joinedAt) :=
  sortByJoined_fold_pairwise l [] (by simp)

/-! ## Demo values for witnesses -/

/-- A demo player: the first joiner (host) of the demo room. -/
def demoP1 : Player :=
  { id := "p1", name := "agnes abbott", isHost := true, joinedAt := 1, roleKey := some .A }

/-- A demo player: the second joiner of the demo room. -/
def demoP2 : Player :=
  { id := "p2", name := "beatrice barnaby", isHost := false, joinedAt := 2, roleKey := some .B }

/-- A demo room in `assigned` status with two players holding roles A and B. -/
def demoAssigned : GameState :=
  { roomId := "room"
    hostId := some "p1"
    status := .assigned
    players := [("p1", demoP1), ("p2", demoP2)]
    roleConfig := ⟨1, 1, 0, 0⟩
    assignedAt := some 5
    rolesCatalog := rolesCatalog }

/-- A demo server holding `demoAssigned`, with both players connected. -/
def demoServer : ServerState :=
  { state := demoAssigned
    connections := ["c1", "c2"]
    bindings := [("c1", "p1"), ("c2", "p2")] }

/-! ## Claim theorems -/

/-- C1: `personalizeStateFor` redacts every other participant's role.  For a
participant `p` with record `q` in room state `s` and any viewer `v`: when
`v ≠ some p` the projection keeps `p`'s record with `roleKey` cleared; when
`v = some p` it returns the true record `q` unchanged; and for `v = none`
(caller not yet identified) the `roleKey` is cleared as well. -/
theorem personalize_redaction (s : GameState) (v : Option String) (p : String) (q : Player)
    (h : recGet s.players p = some q) :
    (v ≠ some p →
        recGet (personalizeStateFor s v).players p = some { q with roleKey := none }) ∧
    (v = some p → recGet (personalizeStateFor s v).players p = some q) ∧
    (v = none →
        recGet (personalizeStateFor s v).players p = some { q with roleKey := none }) := by
  have hmap : recGet (personalizeStateFor s v).players p =
      (recGet s.players p).map
        (fun q => if v = some p then q else { q with roleKey := none }) :=
    recGet_map_pair
      (fun (k : String) (q : Player) => if v = some k then q else { q with roleKey := none })
      s.players p
  refine ⟨fun hne => ?_, fun heq => ?_, fun hnone => ?_⟩
  · rw [hmap, h]
    simp [hne]
  · rw [hmap, h]
    simp [heq]
  · subst hnone
    rw [hmap, h]
    simp

/-- Witness for C1: in the demo room, viewer `p1` sees `p2`'s role cleared. -/
theorem personalize_redaction_witness :
    recGet demoAssigned.players "p2" = some demoP2 ∧
    recGet (personalizeStateFor demoAssigned (some "p1")).players "p2" =
      some { demoP2 with roleKey := none } :=
  ⟨by decide,
    (personalize_redaction demoAssigned (some "p1") "p2" demoP2 (by decide)).1 (by decide)⟩

/-- Clearing every player's `roleKey`, as the `reset` branch does. -/
def clearRoles (l : List (String × Player)) : List (String × Player) :=
  l.map (fun e => (e.1, { e.2 with roleKey := none }))

/-- The server after a successful `reset`: every role cleared, back to the
lobby, `assignedAt` dropped; connections and bindings untouched. -/
def resetServer (st : ServerState) : ServerState :=
  { st with state := { st.state with
      players := clearRoles st.state.players
      status := .lobby
      assignedAt := none } }

/-- A host-issued `reset` performs exactly the reset transition and
broadcasts the new state. -/
theorem reset_spec (st : ServerState) (sender cid : String) (p : Player)
    (now r1 r2 : Nat) (rand : Nat → Nat)
    (hb : recGet st.bindings sender = some cid)
    (hp : recGet st.state.players cid = some p)
    (hhost : p.isHost = true) :
    onRaw st .reset sender now r1 r2 rand =
      (resetServer st, broadcastState (resetServer st)) := by
  simp [onRaw, parseClientMessage, onMessage, getSenderPlayer, hb, hp, hhost,
    resetServer, clearRoles]

/-- C8: a host `Reset` from `assigned` status restores `status = lobby`,
clears `assignedAt`, and maps every participant entry `(id, q)` to
`(id, q)` with only `roleKey` cleared — so ids, names, `joinedAt`, host
flags, and `hostId` are all preserved. -/
theorem reset_round_trip (st : ServerState) (sender cid : String) (p : Player)
    (now r1 r2 : Nat) (rand : Nat → Nat)
    (hb : recGet st.bindings sender = some cid)
    (hp : recGet st.state.players cid = some p)
    (hhost : p.isHost = true)
    (_hstatus : st.state.status = .assigned) :
    (onRaw st .reset sender now r1 r2 rand).1.state =
      { st.state with
        status := .lobby
        assignedAt := none
        players := st.state.players.map (fun e => (e.1, { e.2 with roleKey := none })) } := by
  rw [reset_spec st sender cid p now r1 r2 rand hb hp hhost]
  rfl

/-- Witness for C8: resetting the demo room restores the lobby with both
players kept and both roles cleared. -/
theorem reset_round_trip_witness :
    recGet demoServer.bindings "c1" = some "p1" ∧
    (onRaw demoServer .reset "c1" 9 0 0 (fun _ => 0)).1.state =
      { demoAssigned with
        status := .lobby
        assignedAt := none
        players := demoAssigned.players.map (fun e => (e.1, { e.2 with roleKey := none })) } :=
  ⟨by decide,
    reset_round_trip demoServer "c1" "p1" demoP1 9 0 0 (fun _ => 0)
      (by decide) (by decide) (by decide) (by decide)⟩

/-- C7: a second `Join` with an already-known client id leaves the room
state completely unchanged (same `joinedAt`, `isHost`, name, role, …, and
no new participant); only the connection binding is refreshed. -/
theorem join_idempotent (st : ServerState) (sender name cid : String) (p : Player)
    (now r1 r2 : Nat) (rand : Nat → Nat)
    (hname : name.length ≤ 64) (hcid : 1 ≤ cid.length)
    (_hstatus : st.state.status = .lobby)
    (hp : recGet st.state.players cid = some p) :
    (onRaw st (.join name cid) sender now r1 r2 rand).1.state = st.state ∧
    (onRaw st (.join name cid) sender now r1 r2 rand).1.bindings =
      recSet st.bindings sender cid := by
  have hne : cid ≠ "" := by
    intro h
    subst h
    simp at hcid
  constructor <;> simp [onRaw, parseClientMessage, hname, hcid, onMessage, hne, hp]

/-- Witness for C7: `p1` joining the demo room again changes nothing. -/
theorem join_idempotent_witness :
    recGet demoServer.state.players "p1" = some demoP1 ∧
    (onRaw { demoServer with state := { demoAssigned with status := .lobby } }
        (.join "ada" "p1") "c9" 77 0 0 (fun _ => 0)).1.state =
      { demoAssigned with status := .lobby } :=
  ⟨by decide,
    (join_idempotent { demoServer with state := { demoAssigned with status := .lobby } }
        "c9" "ada" "p1" demoP1 77 0 0 (fun _ => 0)
        (by decide) (by decide) (by decide) (by decide)).1⟩

/-- Clearing already-cleared roles changes nothing. -/
theorem clearRoles_idem (l : List (String × Player)) :
    clearRoles (clearRoles l) = clearRoles l := by
  simp only [clearRoles, List.map_map]
  rfl

/-- The reset transition is idempotent on the server record. -/
theorem resetServer_idem (st : ServerState) : resetServer (resetServer st) = resetServer st := by
  simp [resetServer, clearRoles_idem]

/-- Reading a player through `clearRoles`. -/
theorem recGet_clearRoles (l : List (String × Player)) (k : String) :
    recGet (clearRoles l) k = (recGet l k).map (fun q => { q with roleKey := none }) :=
  recGet_map_pair (fun (_ : String) (q : Player) => ({ q with roleKey := none } : Player)) l k

/-- C10: a host `Reset` carries no status precondition — from any status it
succeeds (broadcasting, never answering an error), yields `status = lobby`
with every `roleKey` and `assignedAt` cleared, and applying `Reset` a second
time (with arbitrary fresh oracles) reproduces exactly the same server
state. -/
theorem reset_no_precondition_idempotent (st : ServerState) (sender cid : String) (p : Player)
    (now now2 r1 r2 r1' r2' : Nat) (rand rand' : Nat → Nat)
    (hb : recGet st.bindings sender = some cid)
    (hp : recGet st.state.players cid = some p)
    (hhost : p.isHost = true) :
    onRaw st .reset sender now r1 r2 rand = (resetServer st, broadcastState (resetServer st)) ∧
    (resetServer st).state.status = .lobby ∧
    (resetServer st).state.assignedAt = none ∧
    (∀ k q, recGet (resetServer st).state.players k = some q → q.roleKey = none) ∧
    (onRaw (resetServer st) .reset sender now2 r1' r2' rand').1 = resetServer st := by
  refine ⟨reset_spec st sender cid p now r1 r2 rand hb hp hhost, rfl, rfl, ?_, ?_⟩
  · intro k q hq
    rw [show (resetServer st).state.players = clearRoles st.state.players from rfl,
      recGet_clearRoles] at hq
    cases hrec : recGet st.state.players k with
    | none => rw [hrec] at hq; cases hq
    | some q' =>
        rw [hrec] at hq
        simp at hq
        rw [← hq]
  · have hb' : recGet (resetServer st).bindings sender = some cid := hb
    have hp' : recGet (resetServer st).state.players cid = some { p with roleKey := none } := by
      rw [show (resetServer st).state.players = clearRoles st.state.players from rfl,
        recGet_clearRoles, hp]
      rfl
    have hhost' : ({ p with roleKey := none } : Player).isHost = true := hhost
    rw [reset_spec (resetServer st) sender cid { p with roleKey := none } now2 r1' r2' rand'
      hb' hp' hhost']
    exact resetServer_idem st

/-- Witness for C10: resetting the demo room from `assigned`, then resetting
again, stays at the once-reset state. -/
theorem reset_no_precondition_idempotent_witness :
    recGet demoServer.bindings "c1" = some "p1" ∧
    ((resetServer demoServer).state.status = .lobby ∧
      (onRaw (resetServer demoServer) .reset "c1" 11 0 0 (fun _ => 0)).1 =
        resetServer demoServer) :=
  ⟨by decide,
    ⟨(reset_no_precondition_idempotent demoServer "c1" "p1" demoP1 9 11 0 0 0 0
        (fun _ => 0) (fun _ => 0) (by decide) (by decide) (by decide)).2.1,
      (reset_no_precondition_idempotent demoServer "c1" "p1" demoP1 9 11 0 0 0 0
        (fun _ => 0) (fun _ => 0) (by decide) (by decide) (by decide)).2.2.2.2⟩⟩

/-- A server with one live, not-yet-joined connection `"c1"`. -/
def unboundServer : ServerState :=
  { initialServer "room" with connections := ["c1"] }

/-- Counterexample to C5 as stated: `RequestState` from a connection with no
bound identity does NOT fail with a NotJoined error — it succeeds, unicasting
the anonymous projection, and no error message is emitted at all. -/
theorem requestState_unbound_counterexample :
    onRaw unboundServer .requestState "c1" 0 0 0 (fun _ => 0) =
      (unboundServer,
        [("c1", ServerMsg.state (personalizeStateFor unboundServer.state none))]) ∧
    ("c1", ServerMsg.error "please join first") ∉
      (onRaw unboundServer .requestState "c1" 0 0 0 (fun _ => 0)).2 := by
  constructor
  · rfl
  · decide

/-- C5 (amended): `SetRoleCount`, `AssignRoles`, and `Reset` from a
connection with no bound identity fail with the NotJoined error
"please join first" (followed by the case's own authorization error), all
unicast to the caller only and with no change to the server state;
`RequestState`, by contrast, succeeds and unicasts the anonymous projection
to the caller only, also with no state change. -/
theorem unbound_connection_commands (st : ServerState) (sender : String)
    (now r1 r2 : Nat) (rand : Nat → Nat)
    (h : recGet st.bindings sender = none) :
    (∀ k c, onMessage st (.setRoleCount k c) sender now r1 r2 rand =
        (st, [(sender, .error "please join first"),
              (sender, .error "only host can edit roles")])) ∧
    onMessage st .assignRoles sender now r1 r2 rand =
      (st, [(sender, .error "please join first"),
            (sender, .error "only host can assign roles")]) ∧
    onMessage st .reset sender now r1 r2 rand =
      (st, [(sender, .error "please join first"),
            (sender, .error "only host can reset")]) ∧
    onMessage st .requestState sender now r1 r2 rand =
      (st, [(sender, .state (personalizeStateFor st.state none))]) := by
  refine ⟨fun k c => ?_, ?_, ?_, ?_⟩ <;>
    simp [onMessage, getSenderPlayer, h, sendStateTo]

/-- Witness for C5 (amended): the unbound demo connection gets exactly the
two unicast errors on `reset` and no state change. -/
theorem unbound_connection_commands_witness :
    recGet unboundServer.bindings "c1" = none ∧
    onMessage unboundServer .reset "c1" 0 0 0 (fun _ => 0) =
      (unboundServer, [("c1", ServerMsg.error "please join first"),
                       ("c1", ServerMsg.error "only host can reset")]) :=
  ⟨by decide,
    (unbound_connection_commands unboundServer "c1" 0 0 0 (fun _ => 0) (by decide)).2.2.1⟩

/-- Counterexample to C4 as stated: the host sending
`SetRoleCount{roleKey:"A", count:150}` is rejected by schema validation with
an "invalid message" error; the quota for "A" stays 1 instead of being
clamped to 99. -/
theorem setRoleCount_oob_counterexample :
    onRaw demoServer (.setRoleCount "A" 150) "c1" 0 0 0 (fun _ => 0) =
      (demoServer, [("c1", ServerMsg.error "invalid message")]) ∧
    demoServer.state.roleConfig.get .A = 1 := by
  constructor
  · rfl
  · rfl

/-- C4 (amended): a `SetRoleCount` count outside `[0, 99]` is rejected by
the message schema (`z.number().int().min(0).max(99)`) with an
"invalid message" error and no state change; a count inside `[0, 99]`
passes the schema and is stored by the host handler, whose clamp
`Math.max(0, Math.min(99, count))` is the identity on that range. -/
theorem setRoleCount_schema_boundary (st : ServerState) (sender cid kstr : String)
    (k : RoleKey) (p : Player) (count : Int) (now r1 r2 : Nat) (rand : Nat → Nat)
    (hb : recGet st.bindings sender = some cid)
    (hp : recGet st.state.players cid = some p)
    (hhost : p.isHost = true)
    (hk : parseRoleKey kstr = some k) :
    ((0 ≤ count ∧ count ≤ 99) →
        (onRaw st (.setRoleCount kstr count) sender now r1 r2 rand).1.state.roleConfig =
          st.state.roleConfig.set k count.toNat) ∧
    ((count < 0 ∨ 99 < count) →
        onRaw st (.setRoleCount kstr count) sender now r1 r2 rand =
          (st, [(sender, .error "invalid message")])) := by
  constructor
  · rintro ⟨h0, h99⟩
    have hclamp : Int.toNat (max 0 (min 99 count)) = count.toNat := by omega
    simp [onRaw, parseClientMessage, hk, h0, h99, onMessage, getSenderPlayer, hb, hp,
      hhost, hclamp]
  · rintro (h | h)
    · simp [onRaw, parseClientMessage, hk, Int.not_le.mpr h]
    · simp [onRaw, parseClientMessage, hk, Int.not_le.mpr h]

/-- Witness for C4 (amended): the demo host sets role "B" to 7, which is
stored as written. -/
theorem setRoleCount_schema_boundary_witness :
    recGet demoServer.bindings "c1" = some "p1" ∧
    (onRaw demoServer (.setRoleCount "B" 7) "c1" 0 0 0 (fun _ => 0)).1.state.roleConfig =
      demoServer.state.roleConfig.set .B 7 :=
  ⟨by decide,
    (setRoleCount_schema_boundary demoServer "c1" "p1" "B" .B demoP1 7 0 0 0 (fun _ => 0)
      (by decide) (by decide) (by decide) (by decide)).1 ⟨by decide, by decide⟩⟩

/-- Every dispatch outcome either carries no error message at all, or leaves
the room state untouched with every send unicast to the sender. -/
theorem onMessage_error_cases (st : ServerState) (msg : ClientMessage) (sender : String)
    (now r1 r2 : Nat) (rand : Nat → Nat) :
    (∀ c m, (c, ServerMsg.error m) ∉ (onMessage st msg sender now r1 r2 rand).2) ∨
    ((onMessage st msg sender now r1 r2 rand).1.state = st.state ∧
      ∀ x ∈ (onMessage st msg sender now r1 r2 rand).2, x.1 = sender) := by
  cases msg with
  | join name clientId =>
      by_cases hcid : clientId = ""
      · right
        constructor <;> simp [onMessage, hcid]
      · cases hrec : recGet st.state.players clientId with
        | some p =>
            left
            intro c m hm
            simp only [onMessage, if_neg hcid] at hm
            rw [hrec] at hm
            exact error_not_mem_broadcast _ c m hm
        | none =>
            left
            intro c m hm
            simp only [onMessage, if_neg hcid] at hm
            rw [hrec] at hm
            exact error_not_mem_broadcast _ c m hm
  | setRoleCount k cnt =>
      cases hb : recGet st.bindings sender with
      | none =>
          right
          constructor <;> simp [onMessage, getSenderPlayer, hb]
      | some cid =>
          cases hp : recGet st.state.players cid with
          | none =>
              right
              constructor <;> simp [onMessage, getSenderPlayer, hb, hp]
          | some p =>
              by_cases hhost : p.isHost = true
              · left
                intro c m hm
                simp [onMessage, getSenderPlayer, hb, hp, hhost] at hm
                exact error_not_mem_broadcast _ c m hm
              · right
                have hfalse : p.isHost = false := Bool.eq_false_iff.mpr hhost
                constructor <;>
                  simp [onMessage, getSenderPlayer, hb, hp, hfalse]
  | assignRoles =>
      cases hb : recGet st.bindings sender with
      | none =>
          right
          constructor <;> simp [onMessage, getSenderPlayer, hb]
      | some cid =>
          cases hp : recGet st.state.players cid with
          | none =>
              right
              constructor <;> simp [onMessage, getSenderPlayer, hb, hp]
          | some p =>
              by_cases hhost : p.isHost = true
              · by_cases hlen : (buildDeck st.state.roleConfig).length =
                    st.state.players.length
                · left
                  intro c m hm
                  simp [onMessage, getSenderPlayer, hb, hp, hhost, hlen] at hm
                  exact error_not_mem_broadcast _ c m hm
                · right
                  constructor <;>
                    simp [onMessage, getSenderPlayer, hb, hp, hhost, hlen]
              · right
                have hfalse : p.isHost = false := Bool.eq_false_iff.mpr hhost
                constructor <;>
                  simp [onMessage, getSenderPlayer, hb, hp, hfalse]
  | reset =>
      cases hb : recGet st.bindings sender with
      | none =>
          right
          constructor <;> simp [onMessage, getSenderPlayer, hb]
      | some cid =>
          cases hp : recGet st.state.players cid with
          | none =>
              right
              constructor <;> simp [onMessage, getSenderPlayer, hb, hp]
          | some p =>
              by_cases hhost : p.isHost = true
              · left
                intro c m hm
                simp [onMessage, getSenderPlayer, hb, hp, hhost] at hm
                exact error_not_mem_broadcast _ c m hm
              · right
                have hfalse : p.isHost = false := Bool.eq_false_iff.mpr hhost
                constructor <;>
                  simp [onMessage, getSenderPlayer, hb, hp, hfalse]
  | requestState =>
      left
      intro c m hm
      simp [onMessage, sendStateTo] at hm
  | setName name =>
      right
      constructor <;> simp [onMessage]
  | setReady b =>
      right
      constructor <;> simp [onMessage]

/-- C6: whenever processing an inbound message produces an error message
(malformed input, schema violation, not joined, not authorized, quota
mismatch, missing identity), the room state is unchanged and every send of
that dispatch — in particular the error itself — goes to the offending
connection only, so no other connection hears anything. -/
theorem error_unicast_no_mutation (st : ServerState) (raw : RawMsg) (sender : String)
    (now r1 r2 : Nat) (rand : Nat → Nat)
    (h : ∃ c m, (c, ServerMsg.error m) ∈ (onRaw st raw sender now r1 r2 rand).2) :
    (onRaw st raw sender now r1 r2 rand).1.state = st.state ∧
    ∀ x ∈ (onRaw st raw sender now r1 r2 rand).2, x.1 = sender := by
  rcases h with ⟨c, m, hm⟩
  cases hparse : parseClientMessage raw with
  | none => constructor <;> simp [onRaw, hparse]
  | some msg =>
      have hred : onRaw st raw sender now r1 r2 rand = onMessage st msg sender now r1 r2 rand := by
        simp [onRaw, hparse]
      rw [hred] at hm ⊢
      rcases onMessage_error_cases st msg sender now r1 r2 rand with hno | hok
      · exact absurd hm (hno c m)
      · exact hok

/-- Witness for C6: a malformed message to the demo room produces an error,
and the room state stays put with the error unicast to the offender. -/
theorem error_unicast_no_mutation_witness :
    (("c1", ServerMsg.error "invalid message") ∈
        (onRaw demoServer .malformed "c1" 0 0 0 (fun _ => 0)).2) ∧
    (onRaw demoServer .malformed "c1" 0 0 0 (fun _ => 0)).1.state = demoServer.state :=
  ⟨by decide,
    (error_unicast_no_mutation demoServer .malformed "c1" 0 0 0 (fun _ => 0)
      ⟨"c1", "invalid message", by decide⟩).1⟩

/-- Reading back a freshly written record key. -/
theorem recGet_recSet_self {α : Type} (m : List (String × α)) (k : String) (v : α) :
    recGet (recSet m k v) k = some v := by
  induction m with
  | nil => simp [recSet, recGet]
  | cons e rest ih =>
      by_cases he : e.1 = k
      · simp [recSet, recGet, he]
      · simp [recSet, recGet, he, ih]

/-- No inbound message ever changes an existing participant's name. -/
theorem name_preserved (st : ServerState) (raw : RawMsg) (sender : String)
    (now r1 r2 : Nat) (rand : Nat → Nat) (cid : String) (p : Player)
    (hp : recGet st.state.players cid = some p) :
    ∃ p', recGet (onRaw st raw sender now r1 r2 rand).1.state.players cid = some p' ∧
      p'.name = p.name := by
  cases hparse : parseClientMessage raw with
  | none => exact ⟨p, by simp [onRaw, hparse, hp], rfl⟩
  | some msg =>
      have hred : onRaw st raw sender now r1 r2 rand = onMessage st msg sender now r1 r2 rand := by
        simp [onRaw, hparse]
      rw [hred]
      clear hred hparse
      cases msg with
      | join name clientId =>
          by_cases hcid : clientId = ""
          · exact ⟨p, by simp [onMessage, hcid, hp], rfl⟩
          · cases hrec : recGet st.state.players clientId with
            | some q => exact ⟨p, by simp [onMessage, hcid, hrec, hp], rfl⟩
            | none =>
                have hne : clientId ≠ cid := by
                  intro h
                  rw [h, hp] at hrec
                  cases hrec
                refine ⟨p, ?_, rfl⟩
                simp only [onMessage, if_neg hcid]
                rw [hrec]
                simpa [recGet_recSet_ne _ _ _ _ hne] using hp
      | setName name => exact ⟨p, by simp [onMessage, hp], rfl⟩
      | setReady b => exact ⟨p, by simp [onMessage, hp], rfl⟩
      | requestState => exact ⟨p, by simp [onMessage, hp], rfl⟩
      | setRoleCount k cnt =>
          cases hb : recGet st.bindings sender with
          | none => exact ⟨p, by simp [onMessage, getSenderPlayer, hb, hp], rfl⟩
          | some cid' =>
              cases hp2 : recGet st.state.players cid' with
              | none => exact ⟨p, by simp [onMessage, getSenderPlayer, hb, hp2, hp], rfl⟩
              | some q =>
                  by_cases hhost : q.isHost = true
                  · exact ⟨p, by simp [onMessage, getSenderPlayer, hb, hp2, hhost, hp], rfl⟩
                  · exact ⟨p, by simp [onMessage, getSenderPlayer, hb, hp2,
                      Bool.eq_false_iff.mpr hhost, hp], rfl⟩
      | reset =>
          cases hb : recGet st.bindings sender with
          | none => exact ⟨p, by simp [onMessage, getSenderPlayer, hb, hp], rfl⟩
          | some cid' =>
              cases hp2 : recGet st.state.players cid' with
              | none => exact ⟨p, by simp [onMessage, getSenderPlayer, hb, hp2, hp], rfl⟩
              | some q =>
                  by_cases hhost : q.isHost = true
                  · refine ⟨{ p with roleKey := none }, ?_, rfl⟩
                    simp only [onMessage, getSenderPlayer, hb, hp2, hhost]
                    simp only [Bool.not_true, Bool.false_eq_true, if_false]
                    show recGet (clearRoles st.state.players) cid = _
                    rw [recGet_clearRoles, hp]
                    rfl
                  · exact ⟨p, by simp [onMessage, getSenderPlayer, hb, hp2,
                      Bool.eq_false_iff.mpr hhost, hp], rfl⟩
      | assignRoles =>
          cases hb : recGet st.bindings sender with
          | none => exact ⟨p, by simp [onMessage, getSenderPlayer, hb, hp], rfl⟩
          | some cid' =>
              cases hp2 : recGet st.state.players cid' with
              | none => exact ⟨p, by simp [onMessage, getSenderPlayer, hb, hp2, hp], rfl⟩
              | some q =>
                  by_cases hhost : q.isHost = true
                  · by_cases hlen : (buildDeck st.state.roleConfig).length =
                        st.state.players.length
                    · refine ⟨(match recGet
                          (((sortByJoined st.state.players).map Prod.fst).zip
                            (shuffle (buildDeck st.state.roleConfig) rand)) cid with
                        | some r => ({ p with roleKey := some r } : Player)
                        | none => p), ?_, ?_⟩
                      · simp [onMessage, getSenderPlayer, hb, hp2, hhost, hlen]
                        exact (recGet_map_pair
                          (fun (k : String) (q' : Player) =>
                            (match recGet
                                (((sortByJoined st.state.players).map Prod.fst).zip
                                  (shuffle (buildDeck st.state.roleConfig) rand)) k with
                            | some r => ({ q' with roleKey := some r } : Player)
                            | none => q')) st.state.players cid).trans (by rw [hp])
                      · cases recGet
                            (((sortByJoined st.state.players).map Prod.fst).zip
                              (shuffle (buildDeck st.state.roleConfig) rand)) cid <;> rfl
                    · exact ⟨p, by simp [onMessage, getSenderPlayer, hb, hp2, hhost,
                        hlen, hp], rfl⟩
                  · exact ⟨p, by simp [onMessage, getSenderPlayer, hb, hp2,
                      Bool.eq_false_iff.mpr hhost, hp], rfl⟩

/-- C9: participant names are server-owned.  (i) whatever message arrives,
every existing participant keeps its name; (ii)/(iii) `setName` and
`setReady` pass the schema but hit no dispatch case, producing only the
"unknown message type" error and no state change; (iv) the `name` field of a
join message is ignored — two joins differing only in that field act
identically; (v) a newly created participant's name is the server-generated
`generateOldTimeyName` value. -/
theorem names_server_owned (st : ServerState) (sender : String) (now r1 r2 : Nat)
    (rand : Nat → Nat) :
    (∀ raw cid p, recGet st.state.players cid = some p →
        ∃ p', recGet (onRaw st raw sender now r1 r2 rand).1.state.players cid = some p' ∧
          p'.name = p.name) ∧
    (∀ name, name.length ≤ 64 →
        onRaw st (.setName name) sender now r1 r2 rand =
          (st, [(sender, .error "unknown message type")])) ∧
    (∀ b, onRaw st (.setReady b) sender now r1 r2 rand =
        (st, [(sender, .error "unknown message type")])) ∧
    (∀ n1 n2 cid, n1.length ≤ 64 → n2.length ≤ 64 →
        onRaw st (.join n1 cid) sender now r1 r2 rand =
          onRaw st (.join n2 cid) sender now r1 r2 rand) ∧
    (∀ name cid, name.length ≤ 64 → 1 ≤ cid.length →
        recGet st.state.players cid = none →
        recGet (onRaw st (.join name cid) sender now r1 r2 rand).1.state.players cid =
          some { id := cid, name := generateOldTimeyName r1 r2,
                 isHost := st.state.players.isEmpty, joinedAt := now }) := by
  refine ⟨fun raw cid p hp => name_preserved st raw sender now r1 r2 rand cid p hp,
    fun name hname => ?_, fun b => ?_, fun n1 n2 cid h1 h2 => ?_, fun name cid hname hcid hrec => ?_⟩
  · simp [onRaw, parseClientMessage, hname, onMessage]
  · simp [onRaw, parseClientMessage, onMessage]
  · by_cases hc : 1 ≤ cid.length <;>
      simp [onRaw, parseClientMessage, h1, h2, hc, onMessage]
  · have hne : cid ≠ "" := by
      intro h
      subst h
      simp at hcid
    simp [onRaw, parseClientMessage, hname, hcid, onMessage, hne, hrec, recGet_recSet_self]

/-- Witness for C9: a schema-valid `setName` to the demo room only draws the
"unknown message type" error. -/
theorem names_server_owned_witness :
    ("bob".length ≤ 64) ∧
    onRaw demoServer (.setName "bob") "c1" 0 0 0 (fun _ => 0) =
      (demoServer, [("c1", ServerMsg.error "unknown message type")]) :=
  ⟨by decide,
    (names_server_owned demoServer "c1" 0 0 0 (fun _ => 0)).2.1 "bob" (by decide)⟩

/-- C2: host `AssignRoles`.  `buildDeck` always has `totalRoles` (the sum of
the quota counts) cards.  When the caller is bound to the host: if the deck
size differs from the participant count, the command fails with the
QuotaMismatch error, unicast, and nothing changes; if it equals the
participant count, the command succeeds — status becomes `assigned`,
`assignedAt := now`, the participants ordered by ascending `joinedAt`
receive the shuffled deck positionally (participant at sort position `i`
gets card `i`), and consequently every participant ends up holding exactly
one role key whose quota count is positive. -/
theorem assign_roles_spec (st : ServerState) (sender cid : String) (p : Player)
    (now r1 r2 : Nat) (rand : Nat → Nat)
    (hb : recGet st.bindings sender = some cid)
    (hp : recGet st.state.players cid = some p)
    (hhost : p.isHost = true)
    (hnodup : (st.state.players.map Prod.fst).Nodup) :
    (buildDeck st.state.roleConfig).length = totalRoles st.state.roleConfig ∧
    ((buildDeck st.state.roleConfig).length ≠ st.state.players.length →
        onMessage st .assignRoles sender now r1 r2 rand =
          (st, [(sender, .error "role count must equal number of players")])) ∧
    ((buildDeck st.state.roleConfig).length = st.state.players.length →
        (onMessage st .assignRoles sender now r1 r2 rand).1.state.status = .assigned ∧
        (onMessage st .assignRoles sender now r1 r2 rand).1.state.assignedAt = some now ∧
        (sortByJoined st.state.players).Pairwise
          (fun a b => a.2.joinedAt ≤ b.2.joinedAt) ∧
        (∀ e ∈ (onMessage st .assignRoles sender now r1 r2 rand).1.state.players,
            ∃ r, e.2.roleKey = some r ∧ 0 < st.state.roleConfig.get r) ∧
        (∀ (i : Nat) (e : String × Player), (sortByJoined st.state.players)[i]? = some e →
            ∃ r, (shuffle (buildDeck st.state.roleConfig) rand)[i]? = some r ∧
              recGet (onMessage st .assignRoles sender now r1 r2 rand).1.state.players e.1 =
                some { e.2 with roleKey := some r })) := by
  refine ⟨buildDeck_length _, fun hne => ?_, fun hlen => ?_⟩
  · simp [onMessage, getSenderPlayer, hb, hp, hhost, hne]
  · have hmain : (onMessage st ClientMessage.assignRoles sender now r1 r2 rand).1.state =
        { st.state with
          players := st.state.players.map (fun e =>
            (e.1, match recGet (((sortByJoined st.state.players).map Prod.fst).zip
                    (shuffle (buildDeck st.state.roleConfig) rand)) e.1 with
                  | some r => { e.2 with roleKey := some r }
                  | none => e.2))
          status := .assigned
          assignedAt := some now } := by
      simp [onMessage, getSenderPlayer, hb, hp, hhost, hlen]
    have hlenord : (sortByJoined st.state.players).length = st.state.players.length :=
      (sortByJoined_perm _).length_eq
    have hlenshuf : (shuffle (buildDeck st.state.roleConfig) rand).length =
        (buildDeck st.state.roleConfig).length := length_shuffle _ _
    have hids : ((sortByJoined st.state.players).map Prod.fst).length =
        (shuffle (buildDeck st.state.roleConfig) rand).length := by
      rw [List.length_map, hlenord, hlenshuf, hlen]
    refine ⟨by simp [hmain], by simp [hmain], sortByJoined_pairwise _, ?_, ?_⟩
    · intro e he
      rw [hmain] at he
      rcases List.mem_map.mp he with ⟨f, hf, rfl⟩
      have hmemids : f.1 ∈ (sortByJoined st.state.players).map Prod.fst :=
        ((sortByJoined_perm st.state.players).map Prod.fst).mem_iff.mpr
          (List.mem_map.mpr ⟨f, hf, rfl⟩)
      rcases recGet_zip_covers _ _ f.1 hids hmemids with ⟨r, hget, hrmem⟩
      refine ⟨r, ?_, mem_buildDeck _ r (mem_shuffle _ _ r hrmem)⟩
      simp [hget]
    · intro i e hie
      have hmemord : e ∈ sortByJoined st.state.players := List.getElem?_mem hie
      have hmempl : e ∈ st.state.players := (sortByJoined_perm _).mem_iff.mp hmemord
      have hi : i < (sortByJoined st.state.players).length := by
        by_contra hge
        rw [List.getElem?_eq_none (Nat.le_of_not_lt hge)] at hie
        cases hie
      have hish : i < (shuffle (buildDeck st.state.roleConfig) rand).length := by
        rw [hlenshuf, hlen, ← hlenord]
        exact hi
      cases hr : (shuffle (buildDeck st.state.roleConfig) rand)[i]? with
      | none =>
          rw [List.getElem?_eq_none_iff] at hr
          exact absurd hish (Nat.not_lt.mpr hr)
      | some r =>
          refine ⟨r, rfl, ?_⟩
          have hnodup' : ((sortByJoined st.state.players).map Prod.fst).Nodup :=
            (((sortByJoined_perm st.state.players).map Prod.fst).symm).nodup hnodup
          have hidx : ((sortByJoined st.state.players).map Prod.fst)[i]? = some e.1 := by
            rw [List.getElem?_map, hie]
            rfl
          have hzip := recGet_zip_idx ((sortByJoined st.state.players).map Prod.fst)
            (shuffle (buildDeck st.state.roleConfig) rand) i e.1 hnodup' hidx hids
          have hpe : recGet st.state.players e.1 = some e.2 :=
            recGet_of_mem_of_nodup st.state.players e.1 e.2 hnodup hmempl
          rw [hmain]
          have hmap := recGet_map_pair
            (fun (k : String) (q : Player) =>
              (match recGet (((sortByJoined st.state.players).map Prod.fst).zip
                  (shuffle (buildDeck st.state.roleConfig) rand)) k with
              | some r' => ({ q with roleKey := some r' } : Player)
              | none => q)) st.state.players e.1
          rw [show ({ st.state with
              players := st.state.players.map (fun e =>
                (e.1, match recGet (((sortByJoined st.state.players).map Prod.fst).zip
                        (shuffle (buildDeck st.state.roleConfig) rand)) e.1 with
                      | some r' => { e.2 with roleKey := some r' }
                      | none => e.2))
              status := GameStatus.assigned
              assignedAt := some now } : GameState).players =
            st.state.players.map (fun e =>
              (e.1, match recGet (((sortByJoined st.state.players).map Prod.fst).zip
                      (shuffle (buildDeck st.state.roleConfig) rand)) e.1 with
                    | some r' => ({ e.2 with roleKey := some r' } : Player)
                    | none => e.2)) from rfl]
          rw [hmap, hpe]
          simp only [hzip, hr]
          rfl

/-- The demo room back in the lobby with no roles dealt, quota `{A:1,B:1}`. -/
def demoLobbyServer : ServerState :=
  { state := { demoAssigned with
      status := .lobby
      assignedAt := none
      players := [("p1", { demoP1 with roleKey := none }),
                  ("p2", { demoP2 with roleKey := none })] }
    connections := ["c1", "c2"]
    bindings := [("c1", "p1"), ("c2", "p2")] }

/-- Witness for C2: the demo host deals roles to the two players. -/
theorem assign_roles_spec_witness :
    (recGet demoLobbyServer.bindings "c1" = some "p1" ∧
      (buildDeck demoLobbyServer.state.roleConfig).length =
        demoLobbyServer.state.players.length) ∧
    ((onMessage demoLobbyServer .assignRoles "c1" 7 0 0 (fun _ => 0)).1.state.status =
        .assigned ∧
      (onMessage demoLobbyServer .assignRoles "c1" 7 0 0 (fun _ => 0)).1.state.assignedAt =
        some 7) :=
  ⟨⟨by decide, by decide⟩,
    ⟨((assign_roles_spec demoLobbyServer "c1" "p1" { demoP1 with roleKey := none }
        7 0 0 (fun _ => 0) (by decide) (by decide) (by decide) (by decide)).2.2
        (by decide)).1,
      ((assign_roles_spec demoLobbyServer "c1" "p1" { demoP1 with roleKey := none }
        7 0 0 (fun _ => 0) (by decide) (by decide) (by decide) (by decide)).2.2
        (by decide)).2.1⟩⟩

/-- One join attempt: the wire fields and oracle draws of a single inbound
`join` message (`time` models the `Date.now()` value observed while
processing it). -/
structure JoinEvt where
  conn : String
  name : String
  clientId : String
  time : Nat
  r1 : Nat
  r2 : Nat

/-- Run a sequence of join messages through the full entry point (the
shuffle oracle is irrelevant to `join`). -/
def applyJoins (st : ServerState) : List JoinEvt → ServerState
  | [] => st
  | e :: rest =>
      applyJoins (onRaw st (.join e.name e.clientId) e.conn e.time e.r1 e.r2 (fun _ => 0)).1 rest

/-- Host invariant carried through join sequences: every existing player
joined no later than `bound`, record keys equal player ids, and either the
room is empty with no host, or the head of the (creation-ordered) player
list is the unique host, is recorded in `hostId`, and has minimal
`joinedAt`. -/
def HostInv (s : GameState) (bound : Nat) : Prop :=
  (∀ e ∈ s.players, e.2.joinedAt ≤ bound) ∧
  (∀ e ∈ s.players, e.2.id = e.1) ∧
  ((s.players = [] ∧ s.hostId = none) ∨
    (∃ h t, s.players = h :: t ∧ h.2.isHost = true ∧ (∀ e ∈ t, e.2.isHost = false) ∧
      s.hostId = some h.1 ∧ ∀ e ∈ s.players, h.2.joinedAt ≤ e.2.joinedAt))

/-- The host invariant survives one join (timestamps running forward). -/
theorem hostInv_step (st : ServerState) (e : JoinEvt) (bound : Nat)
    (hinv : HostInv st.state bound) (hle : bound ≤ e.time) :
    HostInv (onRaw st (.join e.name e.clientId) e.conn e.time e.r1 e.r2
      (fun _ => 0)).1.state e.time := by
  rcases hinv with ⟨hbd, hid, hcase⟩
  have hweak : HostInv st.state e.time :=
    ⟨fun x hx => (hbd x hx).trans hle, hid, hcase⟩
  by_cases hn : e.name.length ≤ 64
  · by_cases hcl : 1 ≤ e.clientId.length
    · have hne : e.clientId ≠ "" := by
        intro h
        rw [h] at hcl
        simp at hcl
      have hred : onRaw st (.join e.name e.clientId) e.conn e.time e.r1 e.r2 (fun _ => 0) =
          onMessage st (.join e.name e.clientId) e.conn e.time e.r1 e.r2 (fun _ => 0) := by
        simp [onRaw, parseClientMessage, hn, hcl]
      rw [hred]
      cases hrec : recGet st.state.players e.clientId with
      | some q =>
          have hstate : (onMessage st (.join e.name e.clientId) e.conn e.time e.r1 e.r2
              (fun _ => 0)).1.state = st.state := by
            simp [onMessage, hne, hrec]
          rw [hstate]
          exact hweak
      | none =>
          have hstate : (onMessage st (.join e.name e.clientId) e.conn e.time e.r1 e.r2
              (fun _ => 0)).1.state =
              { st.state with
                players := st.state.players ++
                  [(e.clientId,
                    { id := e.clientId, name := generateOldTimeyName e.r1 e.r2,
                      isHost := st.state.players.isEmpty, joinedAt := e.time })]
                hostId := if st.state.players.isEmpty then some e.clientId
                          else st.state.hostId } := by
            simp [onMessage, hne, hrec, recSet_eq_append _ _ _ hrec]
          rw [hstate]
          rcases hcase with ⟨hempty, _⟩ | ⟨h, t, hpl, hh, ht, hhid, hmin⟩
          · refine ⟨?_, ?_, Or.inr ⟨(e.clientId,
                { id := e.clientId, name := generateOldTimeyName e.r1 e.r2,
                  isHost := true, joinedAt := e.time }), [], ?_, rfl, by simp, ?_, ?_⟩⟩
            · intro x hx
              simp [hempty] at hx
              rw [hx]
            · intro x hx
              simp [hempty] at hx
              rw [hx]
            · simp [hempty]
            · simp [hempty]
            · intro x hx
              simp [hempty] at hx
              rw [hx]
          · have hnonempty : st.state.players.isEmpty = false := by
              rw [hpl]
              rfl
            refine ⟨?_, ?_, Or.inr ⟨h, t ++
                [(e.clientId,
                  { id := e.clientId, name := generateOldTimeyName e.r1 e.r2,
                    isHost := false, joinedAt := e.time })], ?_, hh, ?_, ?_, ?_⟩⟩
            · intro x hx
              rcases List.mem_append.mp hx with hx | hx
              · exact (hbd x hx).trans hle
              · simp at hx
                rw [hx]
            · intro x hx
              rcases List.mem_append.mp hx with hx | hx
              · exact hid x hx
              · simp at hx
                rw [hx]
            · rw [hpl]
              simp
            · intro x hx
              rcases List.mem_append.mp hx with hx | hx
              · exact ht x hx
              · simp at hx
                rw [hx]
            · simp [hnonempty, hhid]
            · intro x hx
              rcases List.mem_append.mp hx with hx | hx
              · exact hmin x hx
              · simp at hx
                rw [hx]
                exact (hbd h (by rw [hpl]; exact List.mem_cons_self _ _)).trans hle
    · have hstate : (onRaw st (.join e.name e.clientId) e.conn e.time e.r1 e.r2
          (fun _ => 0)).1.state = st.state := by
        simp [onRaw, parseClientMessage, hcl]
      rw [hstate]
      exact hweak
  · have hstate : (onRaw st (.join e.name e.clientId) e.conn e.time e.r1 e.r2
        (fun _ => 0)).1.state = st.state := by
      simp [onRaw, parseClientMessage, hn]
    rw [hstate]
    exact hweak

/-- The host invariant survives any join sequence with forward-running
timestamps. -/
theorem applyJoins_inv (evs : List JoinEvt) (st : ServerState) (bound : Nat)
    (hinv : HostInv st.state bound)
    (hmono : (evs.map JoinEvt.time).Pairwise (· ≤ ·))
    (hb : ∀ e ∈ evs, bound ≤ e.time) :
    ∃ bound', HostInv (applyJoins st evs).state bound' := by
  induction evs generalizing st bound with
  | nil => exact ⟨bound, hinv⟩
  | cons e rest ih =>
      have hstep := hostInv_step st e bound hinv (hb e (by simp))
      have hmono' : List.Pairwise (· ≤ ·) (e.time :: rest.map JoinEvt.time) := by
        simpa using hmono
      have hmono2 := List.pairwise_cons.mp hmono'
      exact ih _ e.time hstep hmono2.2
        (fun f hf => hmono2.1 f.time (List.mem_map.mpr ⟨f, hf, rfl⟩))

/-- C3: starting from a fresh room, after any sequence of `Join` commands
(timestamps non-decreasing), if any participant exists then the
creation-ordered participant list has a head that is the unique participant
with `isHost = true` (filter count 1) — the first participant ever created —
its id equals `hostId`, and its `joinedAt` is minimal among all
participants. -/
theorem join_host_election (roomId : String) (evs : List JoinEvt)
    (hmono : (evs.map JoinEvt.time).Pairwise (· ≤ ·))
    (hne : (applyJoins (initialServer roomId) evs).state.players ≠ []) :
    ∃ h t, (applyJoins (initialServer roomId) evs).state.players = h :: t ∧
      h.2.isHost = true ∧
      (∀ e ∈ t, e.2.isHost = false) ∧
      ((applyJoins (initialServer roomId) evs).state.players.filter
          (fun e => e.2.isHost)).length = 1 ∧
      (applyJoins (initialServer roomId) evs).state.hostId = some h.1 ∧
      h.2.id = h.1 ∧
      (∀ e ∈ (applyJoins (initialServer roomId) evs).state.players,
          h.2.joinedAt ≤ e.2.joinedAt) := by
  have hinit : HostInv (initialServer roomId).state 0 :=
    ⟨by simp [initialServer], by simp [initialServer], Or.inl ⟨rfl, rfl⟩⟩
  rcases applyJoins_inv evs (initialServer roomId) 0 hinit hmono (fun e _ => Nat.zero_le _)
    with ⟨b, hbd, hid, hcase⟩
  rcases hcase with ⟨hempty, _⟩ | ⟨h, t, hpl, hh, ht, hhid, hmin⟩
  · exact absurd hempty hne
  · have hfil : t.filter (fun e => e.2.isHost) = [] := by
      rw [List.filter_eq_nil_iff]
      intro a ha
      simp [ht a ha]
    refine ⟨h, t, hpl, hh, ht, ?_, hhid,
      hid h (by rw [hpl]; exact List.mem_cons_self _ _), hmin⟩
    rw [hpl]
    simp [List.filter_cons, hh, hfil]

/-- Two demo joins with increasing timestamps. -/
def demoJoins : List JoinEvt :=
  [⟨"c1", "ada", "p1", 1, 0, 0⟩, ⟨"c2", "bea", "p2", 2, 1, 1⟩]

/-- Witness for C3: after the two demo joins exactly one host exists. -/
theorem join_host_election_witness :
    ((demoJoins.map JoinEvt.time).Pairwise (· ≤ ·) ∧
      (applyJoins (initialServer "room") demoJoins).state.players ≠ []) ∧
    (∃ h t, (applyJoins (initialServer "room") demoJoins).state.players = h :: t ∧
      h.2.isHost = true ∧
      (∀ e ∈ t, e.2.isHost = false) ∧
      ((applyJoins (initialServer "room") demoJoins).state.players.filter
          (fun e => e.2.isHost)).length = 1 ∧
      (applyJoins (initialServer "room") demoJoins).state.hostId = some h.1 ∧
      h.2.id = h.1 ∧
      (∀ e ∈ (applyJoins (initialServer "room") demoJoins).state.players,
          h.2.joinedAt ≤ e.2.joinedAt)) :=
  ⟨⟨by decide, by decide⟩,
    join_host_election "room" demoJoins (by decide) (by decide)⟩

end Witness
